import Mathlib

/-!
Shallow embedding of the rtlamr `parse` package and the `scm` protocol parser,
together with proofs of the behavioural properties claimed in the
specification.  Go byte values are modelled as `Nat` (with the `< 256` bound
carried as a hypothesis where it matters), Go bit-strings (strings containing
only the characters 0 and 1) as `List Bool`, and Go machine-integer
conversions as explicit `% 2^w`.  Code that can panic is embedded as an
`Option`-valued function, `none` standing for the panic.
-/

namespace parse

/-- Value of a bit string read most-significant-bit first, as computed by
Go `strconv.ParseUint(s, 2, n)` on a string of 0/1 characters (the bit-size
arguments used in this code base are always at least the slice length, so the
parse never overflows and never errors). -/
def bitsToNat (bs : List Bool) : Nat :=
  bs.foldl (fun a b => 2 * a + (if b then 1 else 0)) 0

/-- The 8-character binary rendering `fmt.Sprintf("%08b", b)` of a byte
(most significant bit first); faithful for every `b < 256`, which the Go
`byte` type guarantees. -/
def natToBits8 (b : Nat) : List Bool :=
  [b.testBit 7, b.testBit 6, b.testBit 5, b.testBit 4,
   b.testBit 3, b.testBit 2, b.testBit 1, b.testBit 0]

/-- Embedding of `parse.Data`: a packet held simultaneously as a bit string and as a
packed byte sequence. -/
structure Data where
  Bits : List Bool
  Bytes : List Nat
deriving DecidableEq

/-- Embedding of `parse.NewDataFromBytes`: stores the byte sequence and derives the bit
string by concatenating the `%08b` rendering of each byte, in order. -/
def NewDataFromBytes (data : List Nat) : Data :=
  { Bits := (data.map natToBits8).flatten, Bytes := data }

/-- The byte-building loop of `parse.NewDataFromBits`: the input is consumed
eight bits at a time (`d.Bits[idx:idx+8]`), each chunk parsed as one byte.
When fewer than eight bits remain but the input is not yet exhausted, the Go
string slice `d.Bits[idx:idx+8]` is out of range and the program panics,
modelled here by `none`. -/
def bytesFromBitChunks : List Bool → Option (List Nat)
  | [] => some []
  | b0 :: b1 :: b2 :: b3 :: b4 :: b5 :: b6 :: b7 :: rest =>
      (bytesFromBitChunks rest).map
        (fun r => bitsToNat [b0, b1, b2, b3, b4, b5, b6, b7] :: r)
  | _ => none

/-- Embedding of `parse.NewDataFromBits`: stores the bit string and derives the bytes;
`none` models the panic raised on a bit string whose length is positive and
not a multiple of eight. -/
def NewDataFromBits (data : List Bool) : Option Data :=
  (bytesFromBitChunks data).map (fun bys => { Bits := data, Bytes := bys })

/-- Embedding of `parse.Register`: registering a nil constructor or an already-registered
name panics (modelled by `none`); otherwise the mapping is added.  The
process-wide registry map is passed explicitly; the mutex only serialises
access and has no sequential semantics. -/
def Register {P : Type} (parsers : List (String × (Int → Int → P)))
    (name : String) (parserFn : Option (Int → Int → P)) :
    Option (List (String × (Int → Int → P))) :=
  match parserFn with
  | none => none
  | some fn =>
    if (parsers.lookup name).isSome then none
    else some ((name, fn) :: parsers)

/-- Embedding of `parse.NewParser`: looks the protocol name up in the registry and either
applies the registered constructor to `(symbolLength, decimation)` or returns
the error `fmt.Errorf("invalid message type: %q\n", name)`. -/
def NewParser {P : Type} (parsers : List (String × (Int → Int → P)))
    (name : String) (symbolLength decimation : Int) : Except String P :=
  match parsers.lookup name with
  | some parserFn => Except.ok (parserFn symbolLength decimation)
  | none => Except.error ("invalid message type: \x22" ++ name ++ "\x22\n")

/-- Embedding of `parse.FilterChain`: an ordered sequence of message predicates. -/
abbrev FilterChain (α : Type) : Type := List (α → Bool)

/-- Embedding of `FilterChain.Add`: appends a predicate at the end of the chain. -/
def FilterChain.Add {α : Type} (fc : FilterChain α) (filter : α → Bool) :
    FilterChain α :=
  fc ++ [filter]

/-- The loop body of `FilterChain.Match`: returns `false` at the first
predicate that rejects, `true` when the whole chain has been traversed. -/
def matchLoop {α : Type} : List (α → Bool) → α → Bool
  | [], _ => true
  | f :: fs, msg => if f msg then matchLoop fs msg else false

/-- Embedding of `FilterChain.Match`: an empty chain accepts every message; otherwise the
predicates are evaluated in order with an early `return false`. -/
def FilterChain.Match {α : Type} (fc : FilterChain α) (msg : α) : Bool :=
  if fc.length = 0 then true
  else matchLoop fc msg

/-- The Go `float64` values that reach the signal-strength path, with the
finite values carried exactly as rationals (the claims under verification
never depend on binary rounding, only on the infinite/finite distinction and
on three-decimal rendering of values far from a rounding tie). -/
inductive GoFloat
  | negInf : GoFloat
  | posInf : GoFloat
  | nan : GoFloat
  | finite : ℚ → GoFloat
deriving DecidableEq

/-- The constant `QuantNoise8bit = -48.1647993062` (the source comments it as
`20 * Log10(2^8)`; the stored value is the negated magnitude). -/
def QuantNoise8bit : ℚ := -(481647993062 / 10000000000 : ℚ)

/-- Zero-padded three-digit rendering of a number below 1000. -/
def padZeros3 (n : Nat) : String :=
  if n < 10 then "00" ++ toString n
  else if n < 100 then "0" ++ toString n
  else toString n

/-- Model of `strconv.FormatFloat(x, 'f', 3, 64)` on a finite value: fixed-point with
exactly three decimals, rounding to the nearest thousandth.  (Go rounds the
exact binary value; this model rounds the exact rational and agrees with Go
at every value that is not within a half-ulp of a `.0005` tie, which covers
all values these theorems evaluate.) -/
def formatFixed3 (q : ℚ) : String :=
  (if q < 0 then "-" else "") ++
  toString (⌊|q| * 1000 + 1 / 2⌋ / 1000) ++ "." ++
  padZeros3 (⌊|q| * 1000 + 1 / 2⌋ % 1000).toNat

/-- Model of `RSSI.String`: `strconv.FormatFloat(float64(rssi), 'f', 3, 64)`;
infinities and NaN render as `-Inf`, `+Inf` and `NaN`. -/
def RSSI.String : GoFloat → String
  | GoFloat.negInf => "-Inf"
  | GoFloat.posInf => "+Inf"
  | GoFloat.nan => "NaN"
  | GoFloat.finite q => formatFixed3 q

/-- Embedding of `RSSI.Sanitize`: replaces negative infinity by `QuantNoise8bit` and
leaves every other value unchanged (the Go method mutates through a pointer;
modelled as explicit state passing). -/
def RSSI.Sanitize : GoFloat → GoFloat
  | GoFloat.negInf => GoFloat.finite QuantNoise8bit
  | x => x

/-- Model of `parse.Timestamp`: Go time values and their stdlib RFC3339Nano textual
rendering are external to this code base; a timestamp is modelled by that
rendering, which is all `LogMessage.Record` consumes. -/
structure Timestamp where
  rfc3339Nano : String
deriving DecidableEq

/-- The call `Timestamp.Format(time.RFC3339Nano)` as used by `LogMessage.Record`. -/
def Timestamp.FormatRFC3339Nano (ts : Timestamp) : String :=
  ts.rfc3339Nano

/-- Embedding of `parse.LogMessage`: wraps a protocol message (of arbitrary type `α`,
standing for the Go `Message` interface) with capture metadata. -/
structure LogMessage (α : Type) where
  Time : Timestamp
  Offset : Int
  Length : Int
  RSSI : GoFloat
  Msg : α

/-- Embedding of `LogMessage.Record`: appends, in order, the RFC3339Nano timestamp, the
offset and length in decimal, the `RSSI.String` rendering, and then the
wrapped message's own record fields.  The interface dispatch
`msg.Message.Record()` is passed explicitly as `rec`. -/
def LogMessage.Record {α : Type} (rec : α → List String)
    (msg : LogMessage α) : List String :=
  let r : List String := []
  let r := r ++ [msg.Time.FormatRFC3339Nano]
  let r := r ++ [toString msg.Offset]
  let r := r ++ [toString msg.Length]
  let r := r ++ [RSSI.String msg.RSSI]
  r ++ rec msg.Msg

end parse

namespace scm

/-- Embedding of `scm.SCM`, the Standard Consumption Message.  The Go field `Type` is a
Lean keyword and is embedded as `Typ`; all fields are machine integers
(`uint32`, `uint8`, `uint8`, `uint8`, `uint32`, `uint16`) modelled as `Nat`
with the conversion truncations written explicitly in `NewSCM`. -/
structure SCM where
  ID : Nat
  Typ : Nat
  TamperPhy : Nat
  TamperEnc : Nat
  Consumption : Nat
  ChecksumVal : Nat
deriving DecidableEq

/-- Go string slicing `s[a:b]`, which panics (`none`) unless
`a ≤ b ≤ len(s)`. -/
def goSlice (s : List Bool) (a b : Nat) : Option (List Bool) :=
  if a ≤ b ∧ b ≤ s.length then some ((s.drop a).take (b - a)) else none

/-- Embedding of `scm.NewSCM`: extracts the message fields from fixed bit offsets of the
packet.  Every `strconv.ParseUint` call receives a bit-slice no longer than
its bit-size argument, so the parses never overflow; the integer conversions
`uint32(..)`, `uint8(..)`, `uint16(..)` are the explicit `% 2^w` below.  A
bit string shorter than the highest slice bound would make the Go string
slicing panic, modelled by `none`. -/
def NewSCM (data : parse.Data) : Option SCM := do
  let sa ← goSlice data.Bits 21 23
  let sb ← goSlice data.Bits 56 80
  let sc ← goSlice data.Bits 26 30
  let sd ← goSlice data.Bits 24 26
  let se ← goSlice data.Bits 30 32
  let sf ← goSlice data.Bits 32 56
  let sg ← goSlice data.Bits 80 96
  some { ID := parse.bitsToNat (sa ++ sb) % 2 ^ 32
       , Typ := parse.bitsToNat sc % 2 ^ 8
       , TamperPhy := parse.bitsToNat sd % 2 ^ 8
       , TamperEnc := parse.bitsToNat se % 2 ^ 8
       , Consumption := parse.bitsToNat sf % 2 ^ 32
       , ChecksumVal := parse.bitsToNat sg % 2 ^ 16 }

/-- Embedding of `SCM.MsgType`. -/
def SCM.MsgType (_ : SCM) : String := "SCM"

/-- Embedding of `SCM.MeterID`. -/
def SCM.MeterID (scm : SCM) : Nat := scm.ID

/-- Embedding of `SCM.MeterType`. -/
def SCM.MeterType (scm : SCM) : Nat := scm.Typ

/-- Embedding of `SCM.Checksum`: `binary.BigEndian.PutUint16` into a fresh two-byte
slice — high byte first, each byte truncated to eight bits. -/
def SCM.Checksum (scm : SCM) : List Nat :=
  [scm.ChecksumVal / 256 % 256, scm.ChecksumVal % 256]

/-- Embedding of `scm.Parser`.  The embedded `decode.Decoder` (front end and packet
slicer) and `crc.CRC` engine live outside this code base; the spec treats
the checksum engine as a black box (`Checksum(byteRange) -> integer`, zero
meaning valid), so the parser is embedded as its checksum function, and
`Parse` below consumes the slicer's output packets directly. -/
structure Parser where
  Checksum : List Nat → Nat

/-- The loop of `scm.Parser.Parse` over the sliced packets, carrying the
per-call `seen` set (a packet is marked seen before the length, checksum and
identifier gates run, exactly as in the source).  `none` models a panic
inside `NewSCM`; the gates skip to the next packet silently. -/
def parseLoop (checksum : List Nat → Nat) :
    List (List Nat) → List (List Nat) → Option (List SCM)
  | [], _ => some []
  | pkt :: rest, seen =>
    if pkt ∈ seen then parseLoop checksum rest seen
    else
      let data := parse.NewDataFromBytes pkt
      if data.Bytes.length ≠ 12 then parseLoop checksum rest (pkt :: seen)
      else if checksum ((data.Bytes.drop 2).take 10) ≠ 0 then
        parseLoop checksum rest (pkt :: seen)
      else
        match NewSCM data with
        | none => none
        | some scm =>
          if scm.ID = 0 then parseLoop checksum rest (pkt :: seen)
          else (parseLoop checksum rest (pkt :: seen)).map (fun ms => scm :: ms)

/-- Embedding of `scm.Parser.Parse`: the deduplication set starts empty on every call. -/
def Parser.Parse (p : Parser) (pkts : List (List Nat)) : Option (List SCM) :=
  parseLoop p.Checksum pkts []

/-- The decoded message of a packet (the `some`-value of `NewSCM` on the
packet's `Data`; only ever used on packets for which `NewSCM` is proved to
succeed). -/
def scmOfPkt (pkt : List Nat) : SCM :=
  (NewSCM (parse.NewDataFromBytes pkt)).getD ⟨0, 0, 0, 0, 0, 0⟩

/-- The three acceptance gates of `Parse` for a single packet: wire length
exactly 12 bytes, zero checksum over bytes 2..12, nonzero meter identifier. -/
def gatesP (checksum : List Nat → Nat) (pkt : List Nat) : Prop :=
  pkt.length = 12 ∧ checksum ((pkt.drop 2).take 10) = 0 ∧ (scmOfPkt pkt).ID ≠ 0

instance (checksum : List Nat → Nat) (pkt : List Nat) :
    Decidable (gatesP checksum pkt) := by
  unfold gatesP; infer_instance

/-- The packets of one `Parse` call that survive deduplication and all three
gates, in detection order: the originating packets of the returned
messages. -/
def keptPkts (checksum : List Nat → Nat) :
    List (List Nat) → List (List Nat) → List (List Nat)
  | [], _ => []
  | pkt :: rest, seen =>
    if pkt ∈ seen then keptPkts checksum rest seen
    else if pkt.length ≠ 12 then keptPkts checksum rest (pkt :: seen)
    else if checksum ((pkt.drop 2).take 10) ≠ 0 then
      keptPkts checksum rest (pkt :: seen)
    else if (scmOfPkt pkt).ID = 0 then keptPkts checksum rest (pkt :: seen)
    else pkt :: keptPkts checksum rest (pkt :: seen)

/-- Model of `strconv.FormatUint(x, 16)`: lower-case hexadecimal, no padding. -/
def hexLower (n : Nat) : String := String.mk (Nat.toDigits 16 n)

/-- Upper-case hexadecimal as produced by the `%X` verb. -/
def hexUpper (n : Nat) : String := (String.mk (Nat.toDigits 16 n)).toUpper

/-- Left padding with a fill character up to a field width. -/
def padLeftWith (c : Char) (w : Nat) (s : String) : String :=
  String.mk (List.replicate (w - s.length) c) ++ s

/-- The `%8d` / `%2d` verbs: decimal, space-padded to the width. -/
def goDecPad (w n : Nat) : String := padLeftWith ' ' w (toString n)

/-- The `%02X` / `%04X` verbs: upper-case hex, zero-padded to the width. -/
def goHexPad (w n : Nat) : String := padLeftWith '0' w (hexUpper n)

/-- The format string of `SCM.String`:
`"{ID:%8d Type:%2d Tamper:{Phy:%02X Enc:%02X} Consumption:%8d CRC:0x%04X}"`. -/
def scmFormat (scm : SCM) : String :=
  "\x7bID:" ++ goDecPad 8 scm.ID ++ " Type:" ++ goDecPad 2 scm.Typ ++
  " Tamper:\x7bPhy:" ++ goHexPad 2 scm.TamperPhy ++ " Enc:" ++
  goHexPad 2 scm.TamperEnc ++ "\x7d Consumption:" ++
  goDecPad 8 scm.Consumption ++ " CRC:0x" ++ goHexPad 4 scm.ChecksumVal ++
  "\x7d"

/-- Observable external effects performed by `SCM.String` on its way to
returning the formatted string. -/
inductive Effect
  | readFile (path : String)
  | printCert
  | connectBroker (url : String)
  | publish (topic payload : String)
  | disconnect
deriving DecidableEq

/-- Model of `SCM.String`: before returning the formatted message it builds a TLS
configuration (reading `rootCA.pem` and the client certificate/key pair from
disk, printing the parsed certificate), connects to the MQTT broker
`ssl://data.iot.us-west-2.amazonaws.com:8883` (panicking if the connection
fails), publishes the formatted message on topic `/rtlsdr` and disconnects.
Modelled as the pair of the effect trace and the returned string. -/
def SCM.StringRun (scm : SCM) : List Effect × String :=
  ([ Effect.readFile "rootCA.pem"
   , Effect.readFile "rtlsdr.certificate.crt"
   , Effect.readFile "rtlsdr.private.key"
   , Effect.printCert
   , Effect.connectBroker "ssl://data.iot.us-west-2.amazonaws.com:8883"
   , Effect.publish "/rtlsdr" (scmFormat scm)
   , Effect.disconnect ]
  , scmFormat scm)

/-- Embedding of `SCM.Record`: meter id and type in decimal, the two tamper fields and
the checksum in `0x`-prefixed lower-case hex, consumption in decimal, in
source order. -/
def SCM.Record (scm : SCM) : List String :=
  [ toString scm.ID
  , toString scm.Typ
  , "0x" ++ hexLower scm.TamperPhy
  , "0x" ++ hexLower scm.TamperEnc
  , toString scm.Consumption
  , "0x" ++ hexLower scm.ChecksumVal ]

end scm

/-! Concrete values used by the witness theorems. -/

/-- A parser whose black-box checksum engine accepts every payload. -/
def p0 : scm.Parser := ⟨fun _ => 0⟩

/-- A 12-byte packet: byte 7 is 1, so the meter id (bits 21..23 and 56..80)
decodes to 65536 and every gate of `Parse` passes under `p0`. -/
def pkt0 : List Nat := [0, 0, 0, 0, 0, 0, 0, 1, 0, 0, 0, 0]

/-- A malformed 3-byte packet, rejected by the length gate. -/
def badPkt : List Nat := [1, 2, 3]

/-- A sample registered constructor for the registry witnesses. -/
def f0 : Int → Int → Int := fun s d => s * 100 + d

/-- A registry holding only the name `scm`. -/
def regs0 : List (String × (Int → Int → Int)) := [("scm", f0)]

/-- Accept-if-type-is-SCM predicate from the spec's filter-chain example. -/
def typePred : scm.SCM → Bool := fun m => m.MsgType == "SCM"

/-- Accept-if-meter-id-positive predicate from the same example. -/
def idPred : scm.SCM → Bool := fun m => decide (0 < m.MeterID)

/-- An SCM message whose meter id is 0 (type field 4). -/
def scmZero : scm.SCM := ⟨0, 4, 0, 0, 0, 0⟩

/-- A log message whose signal strength is negative infinity. -/
def lmNegInf : parse.LogMessage scm.SCM :=
  ⟨⟨"2020-01-01T00:00:00Z"⟩, 0, 0, parse.GoFloat.negInf, scmZero⟩

/-! Supporting lemmas. -/

namespace parse

set_option maxRecDepth 4096 in
/-- Reading back the eight-bit rendering of a byte recovers the byte. -/
theorem bitsToNat_natToBits8 : ∀ b < 256, bitsToNat (natToBits8 b) = b := by
  decide

/-- The bit string derived from a byte sequence has eight bits per byte. -/
theorem length_bits_newDataFromBytes (bs : List Nat) :
    (NewDataFromBytes bs).Bits.length = 8 * bs.length := by
  induction bs with
  | nil => rfl
  | cons b rest ih =>
    simp only [NewDataFromBytes, List.map_cons, List.flatten_cons,
      List.length_append, List.length_cons] at ih ⊢
    simp only [natToBits8, List.length_cons, List.length_nil]
    omega

/-- A bit string's value is bounded by two to its length. -/
theorem foldl_bits_lt (bs : List Bool) :
    ∀ a : Nat,
      bs.foldl (fun a b => 2 * a + (if b then 1 else 0)) a
        < (a + 1) * 2 ^ bs.length := by
  induction bs with
  | nil => intro a; simp
  | cons b rest ih =>
    intro a
    have h1 := ih (2 * a + (if b then 1 else 0))
    have hstep : (2 * a + (if b then 1 else 0) + 1) * 2 ^ rest.length
        ≤ (a + 1) * 2 ^ (rest.length + 1) := by
      have hb : (if b then 1 else 0) ≤ 1 := by split <;> simp
      have h2 : 2 * a + (if b then 1 else 0) + 1 ≤ 2 * (a + 1) := by omega
      calc (2 * a + (if b then 1 else 0) + 1) * 2 ^ rest.length
          ≤ 2 * (a + 1) * 2 ^ rest.length := Nat.mul_le_mul_right _ h2
        _ = (a + 1) * 2 ^ (rest.length + 1) := by ring
    simpa only [List.foldl_cons, List.length_cons] using lt_of_lt_of_le h1 hstep

/-- The function `bitsToNat` never reaches `2 ^ length`. -/
theorem bitsToNat_lt (bs : List Bool) : bitsToNat bs < 2 ^ bs.length := by
  simpa [bitsToNat] using foldl_bits_lt bs 0

/-- Prepending one whole byte's bits to a bit string prepends the byte to the
reconstructed byte sequence. -/
theorem bytesFromBitChunks_cons8 (b : Nat) (bits : List Bool) :
    bytesFromBitChunks (natToBits8 b ++ bits)
      = (bytesFromBitChunks bits).map (fun r => bitsToNat (natToBits8 b) :: r) := by
  simp [natToBits8, bytesFromBitChunks]

/-- The byte-reconstruction loop inverts the bit derivation of
`NewDataFromBytes` whenever every entry is an actual byte value. -/
theorem bytesFromBitChunks_flatten (bs : List Nat) (h : ∀ b ∈ bs, b < 256) :
    bytesFromBitChunks ((bs.map natToBits8).flatten) = some bs := by
  induction bs with
  | nil => rfl
  | cons b rest ih =>
    have hb : b < 256 := h b (List.mem_cons_self b rest)
    have hrest : ∀ x ∈ rest, x < 256 := fun x hx => h x (List.mem_cons_of_mem b hx)
    simp [List.map_cons, List.flatten_cons, bytesFromBitChunks_cons8,
      ih hrest, bitsToNat_natToBits8 b hb]

end parse

namespace scm

/-- A 12-byte packet decodes to a 96-bit string. -/
theorem bits_len96 (pkt : List Nat) (h : pkt.length = 12) :
    (parse.NewDataFromBytes pkt).Bits.length = 96 := by
  rw [parse.length_bits_newDataFromBytes, h]

/-- On a 12-byte packet every bit slice taken by `NewSCM` is in bounds, so
`NewSCM` succeeds and returns `scmOfPkt`. -/
theorem newSCM_some (pkt : List Nat) (h : pkt.length = 12) :
    NewSCM (parse.NewDataFromBytes pkt) = some (scmOfPkt pkt) := by
  have h96 := bits_len96 pkt h
  unfold scmOfPkt
  simp [NewSCM, goSlice, h96]

/-- On a 12-byte packet the decoded `ChecksumVal` is the value of bits
80..96 (the `uint16` truncation is the identity on a 16-bit slice). -/
theorem scmOfPkt_checksumVal (pkt : List Nat) (h : pkt.length = 12) :
    (scmOfPkt pkt).ChecksumVal =
      parse.bitsToNat (((parse.NewDataFromBytes pkt).Bits.drop 80).take 16) := by
  have h96 := bits_len96 pkt h
  have hlen : (((parse.NewDataFromBytes pkt).Bits.drop 80).take 16).length = 16 := by
    rw [List.length_take, List.length_drop, h96]; omega
  have hlt := parse.bitsToNat_lt (((parse.NewDataFromBytes pkt).Bits.drop 80).take 16)
  rw [hlen] at hlt
  unfold scmOfPkt
  simp [NewSCM, goSlice, h96]
  omega

/-- One step of `keptPkts`, phrased through the combined gate predicate. -/
theorem keptPkts_cons (c : List Nat → Nat) (pkt : List Nat)
    (rest seen : List (List Nat)) :
    keptPkts c (pkt :: rest) seen =
      if pkt ∈ seen then keptPkts c rest seen
      else if gatesP c pkt then pkt :: keptPkts c rest (pkt :: seen)
      else keptPkts c rest (pkt :: seen) := by
  by_cases hseen : pkt ∈ seen
  · simp [keptPkts, hseen]
  · by_cases h1 : pkt.length = 12
    · by_cases h2 : c ((pkt.drop 2).take 10) = 0
      · by_cases h3 : (scmOfPkt pkt).ID = 0
        · simp [keptPkts, hseen, h1, h2, h3, gatesP]
        · simp [keptPkts, hseen, h1, h2, h3, gatesP]
      · simp [keptPkts, hseen, h1, h2, gatesP]
    · simp [keptPkts, hseen, h1, gatesP]

/-- A packet survives `Parse`'s loop exactly when it occurs in the input,
was not already seen, and passes the length, checksum and identifier
gates. -/
theorem keptPkts_mem (c : List Nat → Nat) :
    ∀ (pkts seen : List (List Nat)) (q : List Nat),
      q ∈ keptPkts c pkts seen ↔ q ∈ pkts ∧ q ∉ seen ∧ gatesP c q := by
  intro pkts
  induction pkts with
  | nil => intro seen q; simp [keptPkts]
  | cons pkt rest ih =>
    intro seen q
    rw [keptPkts_cons]
    by_cases hseen : pkt ∈ seen
    · rw [if_pos hseen, ih]
      by_cases hq : q = pkt
      · subst hq
        constructor
        · rintro ⟨-, hns, -⟩; exact absurd hseen hns
        · rintro ⟨-, hns, -⟩; exact absurd hseen hns
      · simp [List.mem_cons, hq]
    · rw [if_neg hseen]
      by_cases hg : gatesP c pkt
      · rw [if_pos hg]
        constructor
        · intro h
          rcases List.mem_cons.mp h with rfl | hmem
          · exact ⟨List.mem_cons_self _ _, hseen, hg⟩
          · obtain ⟨hr, hns, hgq⟩ := (ih (pkt :: seen) q).mp hmem
            exact ⟨List.mem_cons_of_mem _ hr,
              fun hs => hns (List.mem_cons_of_mem _ hs), hgq⟩
        · rintro ⟨hqc, hns, hgq⟩
          rcases List.mem_cons.mp hqc with rfl | hr
          · exact List.mem_cons_self _ _
          · by_cases hq : q = pkt
            · subst hq; exact List.mem_cons_self _ _
            · refine List.mem_cons_of_mem _
                ((ih (pkt :: seen) q).mpr ⟨hr, ?_, hgq⟩)
              intro hs
              rcases List.mem_cons.mp hs with h | h
              · exact hq h
              · exact hns h
      · rw [if_neg hg, ih]
        constructor
        · rintro ⟨hr, hns, hgq⟩
          exact ⟨List.mem_cons_of_mem _ hr,
            fun hs => hns (List.mem_cons_of_mem _ hs), hgq⟩
        · rintro ⟨hqc, hns, hgq⟩
          rcases List.mem_cons.mp hqc with rfl | hr
          · exact absurd hgq hg
          · refine ⟨hr, ?_, hgq⟩
            intro hs
            rcases List.mem_cons.mp hs with h | h
            · exact hg (h ▸ hgq)
            · exact hns h

/-- The surviving-packet list of one `Parse` call never repeats a packet. -/
theorem keptPkts_nodup (c : List Nat → Nat) :
    ∀ (pkts seen : List (List Nat)), (keptPkts c pkts seen).Nodup := by
  intro pkts
  induction pkts with
  | nil => intro seen; simp [keptPkts]
  | cons pkt rest ih =>
    intro seen
    rw [keptPkts_cons]
    by_cases hseen : pkt ∈ seen
    · rw [if_pos hseen]; exact ih seen
    · rw [if_neg hseen]
      by_cases hg : gatesP c pkt
      · rw [if_pos hg]
        refine List.Nodup.cons ?_ (ih (pkt :: seen))
        intro hmem
        have h := (keptPkts_mem c rest (pkt :: seen) pkt).mp hmem
        exact h.2.1 (List.mem_cons_self pkt seen)
      · rw [if_neg hg]; exact ih (pkt :: seen)

/-- The loop of `Parse` never panics and returns exactly the decoded messages of
the surviving packets, in order. -/
theorem parseLoop_eq (c : List Nat → Nat) :
    ∀ (pkts seen : List (List Nat)),
      parseLoop c pkts seen = some ((keptPkts c pkts seen).map scmOfPkt) := by
  intro pkts
  induction pkts with
  | nil => intro seen; rfl
  | cons pkt rest ih =>
    intro seen
    by_cases hseen : pkt ∈ seen
    · simp [parseLoop, keptPkts, hseen, ih]
    · by_cases h1 : pkt.length = 12
      · by_cases h2 : c ((pkt.drop 2).take 10) = 0
        · have hnew := newSCM_some pkt h1
          simp only [parse.NewDataFromBytes] at hnew
          by_cases h3 : (scmOfPkt pkt).ID = 0
          · simp [parseLoop, keptPkts, hseen, h1, h2, h3, ih,
              parse.NewDataFromBytes, hnew]
          · simp [parseLoop, keptPkts, hseen, h1, h2, h3, ih,
              parse.NewDataFromBytes, hnew]
        · simp [parseLoop, keptPkts, hseen, h1, h2, ih, parse.NewDataFromBytes]
      · simp [parseLoop, keptPkts, hseen, h1, ih, parse.NewDataFromBytes]

end scm

/-- A member of a duplicate-free list is counted exactly once. -/
theorem count_one_of_nodup_of_mem {α : Type} [BEq α] [LawfulBEq α]
    {l : List α} {a : α} (hnd : l.Nodup) (hm : a ∈ l) : l.count a = 1 := by
  induction l with
  | nil => cases hm
  | cons b l ih =>
    rcases List.mem_cons.mp hm with rfl | hmem
    · have hnot : a ∉ l := (List.nodup_cons.mp hnd).1
      have hz : l.count a = 0 := List.count_eq_zero.mpr hnot
      simp [List.count_cons, hz]
    · have hnd2 := (List.nodup_cons.mp hnd).2
      have hne : b ≠ a := by
        rintro rfl; exact (List.nodup_cons.mp hnd).1 hmem
      simp [List.count_cons, ih hnd2 hmem, hne]

/-! The claims. -/

/-- Claim C1: for every call to the SCM parser's `Parse`, every returned
message originates (via `NewSCM` on the slicer's byte sequence) from an
input packet whose decoded byte length is exactly 12 and whose 10-byte
payload (bytes 2 through 12) has checksum zero under the parser's checksum
engine; hence every packet failing the length gate or whose payload checksum
is nonzero — for the SCM parser, the BCH engine with polynomial 0x6F63,
initial value 0 and final xor 0 — is absent from the returned sequence, and
the rejection is silent: `Parse` still returns a message list (it has no
error channel, and no panic occurs). -/
theorem claim_C1 (p : scm.Parser) (pkts : List (List Nat)) :
    ∃ msgs, p.Parse pkts = some msgs ∧
      ∀ m ∈ msgs, ∃ pkt, pkt ∈ pkts ∧ pkt.length = 12 ∧
        p.Checksum ((pkt.drop 2).take 10) = 0 ∧
        scm.NewSCM (parse.NewDataFromBytes pkt) = some m := by
  refine ⟨(scm.keptPkts p.Checksum pkts []).map scm.scmOfPkt,
    scm.parseLoop_eq p.Checksum pkts [], ?_⟩
  intro m hm
  obtain ⟨pkt, hkept, rfl⟩ := List.mem_map.mp hm
  obtain ⟨hin, -, hlen, hck, -⟩ := (scm.keptPkts_mem p.Checksum pkts [] pkt).mp hkept
  exact ⟨pkt, hin, hlen, hck, scm.newSCM_some pkt hlen⟩

/-- Witness for C1 at a concrete parser and packet list containing one valid
and one short packet. -/
theorem claim_C1_witness :
    ∃ msgs, p0.Parse [pkt0, badPkt] = some msgs ∧
      ∀ m ∈ msgs, ∃ pkt, pkt ∈ [pkt0, badPkt] ∧ pkt.length = 12 ∧
        p0.Checksum ((pkt.drop 2).take 10) = 0 ∧
        scm.NewSCM (parse.NewDataFromBytes pkt) = some m :=
  claim_C1 p0 [pkt0, badPkt]

/-- Claim C2: within one `Parse` call the returned messages are exactly the
decodings, in order, of a duplicate-free list of surviving packets, and a
packet that occurs at two or more distinct candidate offsets of the call and
passes the gates occurs exactly once in that list — so exactly one message
is returned for that byte sequence.  The deduplication set is created empty
at the start of each call: a second call on another offset list containing
the same byte sequence again returns exactly one message for it, so
deduplication never spans two `Parse` calls. -/
theorem claim_C2 (p : scm.Parser) (pkts1 pkts2 : List (List Nat))
    (pkt : List Nat) (h1 : pkt ∈ pkts1) (h2 : pkt ∈ pkts2)
    (hlen : pkt.length = 12) (hck : p.Checksum ((pkt.drop 2).take 10) = 0)
    (hid : (scm.scmOfPkt pkt).ID ≠ 0) :
    (∃ kept : List (List Nat), p.Parse pkts1 = some (kept.map scm.scmOfPkt) ∧
      kept.count pkt = 1 ∧ kept.Nodup) ∧
    (∃ kept : List (List Nat), p.Parse pkts2 = some (kept.map scm.scmOfPkt) ∧
      kept.count pkt = 1 ∧ kept.Nodup) := by
  have hgate : scm.gatesP p.Checksum pkt := ⟨hlen, hck, hid⟩
  constructor
  · refine ⟨scm.keptPkts p.Checksum pkts1 [],
      scm.parseLoop_eq p.Checksum pkts1 [], ?_, scm.keptPkts_nodup _ pkts1 []⟩
    exact count_one_of_nodup_of_mem (scm.keptPkts_nodup _ pkts1 [])
      ((scm.keptPkts_mem p.Checksum pkts1 [] pkt).mpr
        ⟨h1, List.not_mem_nil pkt, hgate⟩)
  · refine ⟨scm.keptPkts p.Checksum pkts2 [],
      scm.parseLoop_eq p.Checksum pkts2 [], ?_, scm.keptPkts_nodup _ pkts2 []⟩
    exact count_one_of_nodup_of_mem (scm.keptPkts_nodup _ pkts2 [])
      ((scm.keptPkts_mem p.Checksum pkts2 [] pkt).mpr
        ⟨h2, List.not_mem_nil pkt, hgate⟩)

/-- Witness for C2: the same valid packet at two distinct offsets of one
call, and again in a second call. -/
theorem claim_C2_witness :
    (∃ kept : List (List Nat), p0.Parse [pkt0, pkt0] = some (kept.map scm.scmOfPkt) ∧
      kept.count pkt0 = 1 ∧ kept.Nodup) ∧
    (∃ kept : List (List Nat), p0.Parse [badPkt, pkt0] = some (kept.map scm.scmOfPkt) ∧
      kept.count pkt0 = 1 ∧ kept.Nodup) :=
  claim_C2 p0 [pkt0, pkt0] [badPkt, pkt0] pkt0 (by decide) (by decide)
    (by decide) rfl (by decide)

/-- Claim C7: a decoded SCM record whose meter id field is 0 never appears
in `Parse`'s output. -/
theorem claim_C7 (p : scm.Parser) (pkts : List (List Nat))
    (msgs : List scm.SCM) (h : p.Parse pkts = some msgs) :
    ∀ m ∈ msgs, m.ID ≠ 0 := by
  intro m hm
  rw [scm.Parser.Parse, scm.parseLoop_eq p.Checksum pkts []] at h
  obtain rfl := Option.some_injective _ h.symm
  obtain ⟨pkt, hkept, rfl⟩ := List.mem_map.mp hm
  exact ((scm.keptPkts_mem p.Checksum pkts [] pkt).mp hkept).2.2.2.2

/-- Witness for C7 at a concrete parser run that returns one message. -/
theorem claim_C7_witness : (scm.scmOfPkt pkt0).ID ≠ 0 :=
  claim_C7 p0 [pkt0] [scm.scmOfPkt pkt0] (by decide) (scm.scmOfPkt pkt0)
    (List.mem_cons_self _ _)

/-- Claim C10: `Parse` never panics — it always returns a message list —
because every `Data` on which it invokes `NewSCM` has passed the 12-byte
length gate, giving a 96-bit string within which every slice taken by
`NewSCM` is in bounds; on such data `NewSCM` succeeds, its `ChecksumVal`
field is the integer value of bits 80..96 of the packet, and `Checksum()`
returns exactly that value as two bytes in big-endian order. -/
theorem claim_C10 (p : scm.Parser) (pkts : List (List Nat)) (pkt : List Nat)
    (h : pkt.length = 12) :
    (p.Parse pkts).isSome = true ∧
    (parse.NewDataFromBytes pkt).Bits.length = 96 ∧
    ∃ s, scm.NewSCM (parse.NewDataFromBytes pkt) = some s ∧
      s.ChecksumVal =
        parse.bitsToNat (((parse.NewDataFromBytes pkt).Bits.drop 80).take 16) ∧
      s.Checksum = [s.ChecksumVal / 256, s.ChecksumVal % 256] ∧
      s.Checksum.length = 2 := by
  have h96 := scm.bits_len96 pkt h
  have hchk := scm.scmOfPkt_checksumVal pkt h
  have hlt : (scm.scmOfPkt pkt).ChecksumVal < 2 ^ 16 := by
    have hlen : (((parse.NewDataFromBytes pkt).Bits.drop 80).take 16).length = 16 := by
      rw [List.length_take, List.length_drop, h96]; omega
    have hb := parse.bitsToNat_lt (((parse.NewDataFromBytes pkt).Bits.drop 80).take 16)
    rw [hlen] at hb
    rw [hchk]; exact hb
  refine ⟨?_, h96, scm.scmOfPkt pkt, scm.newSCM_some pkt h, hchk, ?_, rfl⟩
  · rw [scm.Parser.Parse, scm.parseLoop_eq]; rfl
  · have hdivlt : (scm.scmOfPkt pkt).ChecksumVal / 256 < 256 := by
      have h65536 : (2 : Nat) ^ 16 = 256 * 256 := by norm_num
      rw [h65536] at hlt
      exact Nat.div_lt_of_lt_mul (by omega)
    rw [scm.SCM.Checksum, Nat.mod_eq_of_lt hdivlt]

/-- Witness for C10 at a concrete 12-byte packet. -/
theorem claim_C10_witness :
    (p0.Parse [pkt0]).isSome = true ∧
    (parse.NewDataFromBytes pkt0).Bits.length = 96 ∧
    ∃ s, scm.NewSCM (parse.NewDataFromBytes pkt0) = some s ∧
      s.ChecksumVal =
        parse.bitsToNat (((parse.NewDataFromBytes pkt0).Bits.drop 80).take 16) ∧
      s.Checksum = [s.ChecksumVal / 256, s.ChecksumVal % 256] ∧
      s.Checksum.length = 2 :=
  claim_C10 p0 [pkt0] pkt0 (by decide)

/-- Claim C3: reconstructing a `Data` from the bit string derived from any
byte sequence recovers the original bytes exactly, and the bit string has
eight characters per byte (so 12 bytes give a 96-character bit string). -/
theorem claim_C3 (bs : List Nat) (h : ∀ b ∈ bs, b < 256) :
    parse.NewDataFromBits (parse.NewDataFromBytes bs).Bits
      = some ⟨(parse.NewDataFromBytes bs).Bits, bs⟩ ∧
    (parse.NewDataFromBytes bs).Bits.length = 8 * bs.length := by
  constructor
  · simp only [parse.NewDataFromBytes, parse.NewDataFromBits]
    rw [parse.bytesFromBitChunks_flatten bs h]
    rfl
  · exact parse.length_bits_newDataFromBytes bs

/-- Witness for C3 on a concrete 12-byte sequence. -/
theorem claim_C3_witness :
    parse.NewDataFromBits (parse.NewDataFromBytes pkt0).Bits
      = some ⟨(parse.NewDataFromBytes pkt0).Bits, pkt0⟩ ∧
    (parse.NewDataFromBytes pkt0).Bits.length = 8 * pkt0.length :=
  claim_C3 pkt0 (by decide)

/-- Claim C4 fails on the code: on the 4-bit string `0101` (length not a
multiple of 8) `NewDataFromBits` panics — the loop slices `d.Bits[0:8]` on a
4-character string — instead of returning a zero-padded single byte;
evaluated here, the embedded function returns `none` (the panic), not a
`Data` value with `ceil(4/8) = 1` byte. -/
theorem claim_C4_eval :
    parse.NewDataFromBits [false, true, false, true] = none ∧
    ∀ d : parse.Data,
      parse.NewDataFromBits [false, true, false, true] ≠ some d := by
  constructor
  · rfl
  · intro d h
    cases h

/-- Claim C5 fails on the code for `String`: formatting an SCM message via
`String()` performs external effects — it reads certificate files, connects
to the MQTT broker `ssl://data.iot.us-west-2.amazonaws.com:8883`, publishes
the formatted message on `/rtlsdr` and disconnects — before returning the
string, for every message value.  (`Record` by contrast is a pure function
of the fields, as embedded in `SCM.Record`.) -/
theorem claim_C5 (s : scm.SCM) :
    (scm.SCM.StringRun s).1 ≠ [] ∧
    scm.Effect.publish "/rtlsdr" (scm.scmFormat s) ∈ (scm.SCM.StringRun s).1 ∧
    scm.Effect.connectBroker "ssl://data.iot.us-west-2.amazonaws.com:8883"
      ∈ (scm.SCM.StringRun s).1 ∧
    scm.SCM.Record s
      = [ toString s.ID, toString s.Typ, "0x" ++ scm.hexLower s.TamperPhy
        , "0x" ++ scm.hexLower s.TamperEnc, toString s.Consumption
        , "0x" ++ scm.hexLower s.ChecksumVal ] := by
  refine ⟨?_, ?_, ?_, rfl⟩ <;> simp [scm.SCM.StringRun]

/-- Claim C6: `Register` fails immediately on a nil constructor or a
duplicate name and otherwise adds the mapping; `NewParser` applies the
registered constructor when the name is known and otherwise returns the
descriptive error naming the unknown protocol. -/
theorem claim_C6 {P : Type} (parsers : List (String × (Int → Int → P)))
    (name : String) (fn : Int → Int → P) (symbolLength decimation : Int) :
    parse.Register parsers name none = none ∧
    ((parsers.lookup name).isSome = true →
      parse.Register parsers name (some fn) = none) ∧
    (parsers.lookup name = none →
      parse.Register parsers name (some fn) = some ((name, fn) :: parsers)) ∧
    (parsers.lookup name = some fn →
      parse.NewParser parsers name symbolLength decimation
        = Except.ok (fn symbolLength decimation)) ∧
    (parsers.lookup name = none →
      parse.NewParser parsers name symbolLength decimation
        = Except.error ("invalid message type: \x22" ++ name ++ "\x22\n")) := by
  refine ⟨rfl, ?_, ?_, ?_, ?_⟩
  · intro h; simp [parse.Register, h]
  · intro h; simp [parse.Register, h]
  · intro h; simp [parse.NewParser, h]
  · intro h; simp [parse.NewParser, h]

/-- Witness for C6 on a registry holding the single name `scm`. -/
theorem claim_C6_witness :
    parse.Register regs0 "scm" none = none ∧
    parse.Register regs0 "scm" (some f0) = none ∧
    parse.Register regs0 "idm" (some f0) = some (("idm", f0) :: regs0) ∧
    parse.NewParser regs0 "scm" 72 1 = Except.ok (f0 72 1) ∧
    parse.NewParser regs0 "idm" 72 1
      = Except.error ("invalid message type: \x22idm\x22\n") := by
  have hs := claim_C6 regs0 "scm" f0 72 1
  have hi := claim_C6 regs0 "idm" f0 72 1
  exact ⟨hs.1, hs.2.1 (by rfl), hi.2.2.1 (by rfl), hs.2.2.2.1 (by rfl),
    hi.2.2.2.2 (by rfl)⟩

/-- The early-return loop of `Match` agrees with conjunction over the
whole chain. -/
theorem matchLoop_eq_all {α : Type} (m : α) :
    ∀ fs : List (α → Bool), parse.matchLoop fs m = fs.all (fun f => f m) := by
  intro fs
  induction fs with
  | nil => rfl
  | cons f fs ih =>
    cases hf : f m <;> simp [parse.matchLoop, hf, ih]

/-- The function `Match` is the conjunction of the predicates on the message. -/
theorem match_eq_all {α : Type} (fc : parse.FilterChain α) (m : α) :
    parse.FilterChain.Match fc m = fc.all (fun f => f m) := by
  cases fc with
  | nil => rfl
  | cons f fs => simp [parse.FilterChain.Match, matchLoop_eq_all]

/-- Claim C8: the empty chain accepts every message; a non-empty chain
accepts exactly when every predicate accepts; the result is `false` as soon
as one predicate rejects, independently of every predicate after it (the
loop returns before evaluating them); and `Add` appends at the end, so the
added predicate is evaluated after the existing chain. -/
theorem claim_C8 (α : Type) (fc : parse.FilterChain α) (m : α) :
    parse.FilterChain.Match ([] : parse.FilterChain α) m = true ∧
    (parse.FilterChain.Match fc m = true ↔ ∀ f ∈ fc, f m = true) ∧
    (∀ (pre : List (α → Bool)) (f : α → Bool) (post post2 : List (α → Bool)),
      f m = false →
        parse.FilterChain.Match (pre ++ f :: post) m = false ∧
        parse.FilterChain.Match (pre ++ f :: post) m
          = parse.FilterChain.Match (pre ++ f :: post2) m) ∧
    (∀ g : α → Bool,
      parse.FilterChain.Match (fc.Add g) m
        = (parse.FilterChain.Match fc m && g m)) := by
  refine ⟨rfl, ?_, ?_, ?_⟩
  · rw [match_eq_all]; exact List.all_eq_true
  · intro pre f post post2 hf
    constructor
    · rw [match_eq_all]; simp [List.all_append, hf]
    · rw [match_eq_all, match_eq_all]; simp [List.all_append, hf]
  · intro g
    rw [match_eq_all, match_eq_all, parse.FilterChain.Add]
    simp [List.all_append]

/-- Witness for C8: the spec's own example — the chain
{accept-if-type-is-SCM, accept-if-id-positive} rejects a message of type SCM
with meter id 0 (the second predicate rejects). -/
theorem claim_C8_witness :
    parse.FilterChain.Match [typePred, idPred] scmZero = false :=
  ((claim_C8 scm.SCM [] scmZero).2.2.1 [typePred] idPred [] []
    (by decide)).1

/-- The noise-floor constant renders as `-48.165` under three-decimal
fixed-point formatting. -/
theorem formatQuantNoise :
    parse.formatFixed3 parse.QuantNoise8bit = "-48.165" := by
  have hneg : parse.QuantNoise8bit < 0 := by
    rw [parse.QuantNoise8bit]; norm_num
  have habs : |parse.QuantNoise8bit| = (481647993062 : ℚ) / 10000000000 := by
    rw [parse.QuantNoise8bit, abs_neg, abs_of_nonneg (by norm_num)]
  have hfloor : ⌊|parse.QuantNoise8bit| * 1000 + 1 / 2⌋ = (48165 : ℤ) := by
    rw [habs, Int.floor_eq_iff]
    constructor <;> norm_num
  rw [parse.formatFixed3, if_pos hneg, hfloor]
  rfl

/-- Claim C9 (amended): `LogMessage.Record` produces, in exactly this order,
the RFC3339Nano timestamp, the byte offset, the decoded-region length, the
stored signal strength rendered by `RSSI.String` (three-decimal fixed point
for finite values), and then the wrapped message's own record fields.  The
replacement of negative infinity by `QuantNoise8bit = -48.1647993062` is
performed by the separate `RSSI.Sanitize` operation — which callers must
invoke before encoding — not inside `Record`. -/
theorem claim_C9 (α : Type) (rec : α → List String)
    (lm : parse.LogMessage α) :
    parse.LogMessage.Record rec lm
      = [lm.Time.FormatRFC3339Nano, toString lm.Offset, toString lm.Length,
         parse.RSSI.String lm.RSSI] ++ rec lm.Msg ∧
    parse.RSSI.Sanitize parse.GoFloat.negInf
      = parse.GoFloat.finite parse.QuantNoise8bit ∧
    (∀ q : ℚ, parse.RSSI.Sanitize (parse.GoFloat.finite q)
      = parse.GoFloat.finite q) ∧
    parse.RSSI.String (parse.GoFloat.finite parse.QuantNoise8bit)
      = "-48.165" :=
  ⟨rfl, rfl, fun _ => rfl, formatQuantNoise⟩

/-- Counterexample to claim C9 as stated: on a log message whose signal
strength is negative infinity, `Record`'s fourth field is `-Inf` — the
negative infinity is not replaced before formatting inside `Record`; had it
been sanitized first, the field would have read `-48.165`. -/
theorem claim_C9_counterexample :
    (parse.LogMessage.Record scm.SCM.Record lmNegInf)[3]? = some "-Inf" ∧
    parse.RSSI.String (parse.RSSI.Sanitize parse.GoFloat.negInf)
      = "-48.165" ∧
    (parse.LogMessage.Record scm.SCM.Record lmNegInf)[3]? ≠ some "-48.165" := by
  refine ⟨rfl, formatQuantNoise, ?_⟩
  intro h
  rw [show (parse.LogMessage.Record scm.SCM.Record lmNegInf)[3]?
      = some "-Inf" from rfl] at h
  simp at h
